import Mathlib

/-!
# Verification of the yapascourant backend (src/server.js)

Shallow embedding of the request handlers of `src/server.js`:

* `POST /api/scores` — `postScore`
* `GET /api/scores/:game` — `gameLeaderboard` (match, playerKey, sort date
  desc, group first, sort score desc)
* `GET /api/scores` — `allLeaderboard` (playerGameKey variant)
* `POST /api/votes` — `postVote`
* `GET /api/votes` — `voteCounts`
* `GET /comments` — `getComments`

Timestamps (`new Date()`) are modelled as `Nat`; JS numbers as `Int`;
possibly-absent body fields as `Option`.  MongoDB `$trim` is modelled by
`trimWs` (surrounding whitespace removal).
-/

/-- MongoDB `$trim` with default `chars`: remove surrounding whitespace.
Implemented over the character list so that it is kernel-reducible. -/
def trimWs (s : String) : String :=
  ⟨((s.data.dropWhile Char.isWhitespace).reverse.dropWhile Char.isWhitespace).reverse⟩

/-- A stored score document: `{name, location, game, score, date}` as inserted
by `POST /api/scores` (server.js line 79). -/
structure ScoreRecord where
  name : String
  location : String
  game : String
  score : Int
  date : Nat
deriving Repr, DecidableEq

/-- The `playerKey` field added by the `$addFields`/`$concat` stage of
`GET /api/scores/:game` (server.js lines 103-113):
`trim(name) ++ "-" ++ trim(location)`. -/
def playerKey (r : ScoreRecord) : String :=
  trimWs r.name ++ "-" ++ trimWs r.location

/-- The `playerGameKey` field added by the `$addFields`/`$concat` stage of
`GET /api/scores` (server.js lines 148-160):
`trim(name) ++ "-" ++ trim(location) ++ "-" ++ trim(game)`. -/
def playerGameKey (r : ScoreRecord) : String :=
  trimWs r.name ++ "-" ++ trimWs r.location ++ "-" ++ trimWs r.game

/-- The `$sort {date: -1}` order: `a` before `b` iff `b.date ≤ a.date`. -/
def dateGe (a b : ScoreRecord) : Prop := b.date ≤ a.date

instance : DecidableRel dateGe := fun a b => inferInstanceAs (Decidable (b.date ≤ a.date))

instance : IsTotal ScoreRecord dateGe := ⟨fun a b => Nat.le_total b.date a.date⟩

instance : IsTrans ScoreRecord dateGe := ⟨fun _ _ _ h1 h2 => le_trans h2 h1⟩

/-- The final `$sort {score: -1}` order: `a` before `b` iff `b.score ≤ a.score`. -/
def scoreGe (a b : ScoreRecord) : Prop := b.score ≤ a.score

instance : DecidableRel scoreGe := fun a b => inferInstanceAs (Decidable (b.score ≤ a.score))

instance : IsTotal ScoreRecord scoreGe := ⟨fun a b => Int.le_total b.score a.score⟩

instance : IsTrans ScoreRecord scoreGe := ⟨fun _ _ _ h1 h2 => le_trans h2 h1⟩

/-- The `$group {_id: key, doc: {$first: "$$ROOT"}}` + `$replaceRoot` stages:
keep, for each distinct key, the first document of the incoming order
(server.js lines 119-128 and 166-175). -/
def dedupByKey {α : Type} (key : α → String) : List α → List α
  | [] => []
  | a :: rest => a :: (dedupByKey key rest).filter (fun s => key s != key a)

/-- `GET /api/scores/:game` (server.js lines 94-140): `$match` on the game,
add `playerKey`, `$sort {date: -1}`, `$group` keeping the first (most recent)
document per key, `$sort {score: -1}`. -/
def gameLeaderboard (g : String) (records : List ScoreRecord) : List ScoreRecord :=
  List.insertionSort scoreGe
    (dedupByKey playerKey
      (List.insertionSort dateGe (records.filter (fun r => r.game == g))))

/-- `GET /api/scores` (server.js lines 142-187): add `playerGameKey`,
`$sort {date: -1}`, `$group` keeping the first (most recent) document per key,
`$sort {score: -1}`. -/
def allLeaderboard (records : List ScoreRecord) : List ScoreRecord :=
  List.insertionSort scoreGe
    (dedupByKey playerGameKey
      (List.insertionSort dateGe records))

/-- Request body of `POST /api/scores`; each field may be absent. -/
structure ScoreBody where
  name : Option String
  location : Option String
  game : Option String
  score : Option Int
deriving Repr, DecidableEq

/-- JS truthiness of a possibly-absent string: `undefined` and `""` are falsy. -/
def truthyStr : Option String → Bool
  | none => false
  | some s => s != ""

/-- JS truthiness of a possibly-absent number: `undefined` and `0` are falsy. -/
def truthyNum : Option Int → Bool
  | none => false
  | some n => n != 0

/-- Outcome of `POST /api/scores`: 400 or the inserted record. -/
inductive PostScoreResult where
  | badRequest
  | inserted (r : ScoreRecord)
deriving Repr, DecidableEq

/-- `POST /api/scores` (server.js lines 70-92): `if (!name || !location ||
!game || !score)` return 400, else insert `{name, location, game, score,
date: new Date()}`. -/
def postScore (b : ScoreBody) (now : Nat) : PostScoreResult :=
  if !truthyStr b.name || !truthyStr b.location || !truthyStr b.game || !truthyNum b.score then
    PostScoreResult.badRequest
  else
    PostScoreResult.inserted
      ⟨b.name.getD "", b.location.getD "", b.game.getD "", b.score.getD 0, now⟩

/-- A stored vote document: `{game, clientIp, date}` as inserted by
`POST /api/votes` (server.js line 205).  `game` is `Option` because the
handler destructures `req.body` without checking presence. -/
structure VoteRecord where
  game : Option String
  clientIp : String
  date : Nat
deriving Repr, DecidableEq

/-- Outcome of `POST /api/votes`: the 400 duplicate-vote error or the
inserted record. -/
inductive PostVoteResult where
  | conflict
  | inserted (v : VoteRecord)
deriving Repr, DecidableEq

/-- `POST /api/votes` (server.js lines 189-216): `findOne({game, clientIp})`;
if a document is found return a 400 "already voted" error, otherwise insert
`{game, clientIp, date: new Date()}`.  Returns the outcome together with the
vote collection after the request. -/
def postVote (votes : List VoteRecord) (game : Option String) (clientIp : String)
    (now : Nat) : PostVoteResult × List VoteRecord :=
  match votes.find? (fun v => v.game == game && v.clientIp == clientIp) with
  | some _ => (PostVoteResult.conflict, votes)
  | none =>
      (PostVoteResult.inserted ⟨game, clientIp, now⟩, votes ++ [⟨game, clientIp, now⟩])

/-- The distinct raw `_id` values of the `$group {_id: "$game"}` stage, in
first appearance order.  Grouping happens on the raw BSON value: a missing
`game` (`null`) and the literal string `"null"` are distinct group ids. -/
def dedupGames : List (Option String) → List (Option String)
  | [] => []
  | a :: rest => a :: (dedupGames rest).filter (fun s => s != a)

/-- The `count: {$sum: 1}` of the `$group` stage: number of votes whose raw
`game` value equals `g`. -/
def countVotesFor (votes : List VoteRecord) (g : Option String) : Nat :=
  (votes.filter (fun v => v.game == g)).length

/-- The output of the `$group` aggregation of `GET /api/votes` (server.js
lines 221-225): one `(_id, count)` pair per distinct raw game value. -/
def voteGroups (votes : List VoteRecord) : List (Option String × Nat) :=
  (dedupGames (votes.map VoteRecord.game)).map (fun g => (g, countVotesFor votes g))

/-- The JS property name produced by `voteCounts[vote._id] = ...`: a `null`
group id stringifies to the property name `"null"` at assignment time. -/
def jsPropName : Option String → String
  | some s => s
  | none => "null"

/-- The initial accumulator `{delestage: 0, panne: 0, detective: 0}`
(server.js line 227), as an ordered JS object. -/
def initCounts : List (String × Nat) :=
  [("delestage", 0), ("panne", 0), ("detective", 0)]

/-- JS property assignment `obj[k] = v` on an ordered object: overwrite the
existing entry in place, or append a new one. -/
def setKey : List (String × Nat) → String → Nat → List (String × Nat)
  | [], k, v => [(k, v)]
  | (k1, v1) :: rest, k, v =>
      if k1 == k then (k1, v) :: rest else (k1, v1) :: setKey rest k v

/-- JS property read `obj[k]` on an ordered object. -/
def lookupKey : List (String × Nat) → String → Option Nat
  | [], _ => none
  | (k1, v1) :: rest, k => if k1 == k then some v1 else lookupKey rest k

/-- `GET /api/votes` (server.js lines 218-235): group votes by raw game
value, then `votes.forEach(vote => voteCounts[vote._id] = vote.count)`
starting from `initCounts`; each assignment stringifies the group id into a
property name, so colliding names overwrite each other. -/
def voteCounts (votes : List VoteRecord) : List (String × Nat) :=
  (voteGroups votes).foldl (fun m p => setKey m (jsPropName p.1) p.2) initCounts

/-- A stored comment document: `{name, comment, timestamp}` as inserted by
`POST /comments` (server.js line 243). -/
structure CommentRecord where
  name : String
  comment : String
  timestamp : Nat
deriving Repr, DecidableEq

/-- The `.sort({timestamp: -1})` order on comments. -/
def tsGe (a b : CommentRecord) : Prop := b.timestamp ≤ a.timestamp

instance : DecidableRel tsGe := fun a b => inferInstanceAs (Decidable (b.timestamp ≤ a.timestamp))

instance : IsTotal CommentRecord tsGe := ⟨fun a b => Nat.le_total b.timestamp a.timestamp⟩

instance : IsTrans CommentRecord tsGe := ⟨fun _ _ _ h1 h2 => le_trans h2 h1⟩

/-- `GET /comments` (server.js lines 251-264):
`find().sort({timestamp: -1}).limit(50)`. -/
def getComments (comments : List CommentRecord) : List CommentRecord :=
  (List.insertionSort tsGe comments).take 50

/-- First submission of the spec scenario: `(A, L1, Game1, 100)` at time 1. -/
def rec100 : ScoreRecord := ⟨"A", "L1", "Game1", 100, 1⟩

/-- Second, later submission of the spec scenario: `(A, L1, Game1, 50)` at time 2. -/
def rec50 : ScoreRecord := ⟨"A", "L1", "Game1", 50, 2⟩

/-! ## Helper lemmas about the `$group`/`$first` stage -/

theorem mem_of_mem_dedupByKey {α : Type} (key : α → String) (l : List α) (r : α)
    (h : r ∈ dedupByKey key l) : r ∈ l := by
  induction l with
  | nil => simp [dedupByKey] at h
  | cons a rest ih =>
      simp only [dedupByKey, List.mem_cons, List.mem_filter] at h
      rcases h with h1 | ⟨h2, _⟩
      · exact h1 ▸ List.mem_cons_self a rest
      · exact List.mem_cons_of_mem a (ih h2)

theorem dedupByKey_pairwise {α : Type} (key : α → String) (l : List α) :
    (dedupByKey key l).Pairwise (fun x y => key x ≠ key y) := by
  induction l with
  | nil => simp [dedupByKey]
  | cons a rest ih =>
      simp only [dedupByKey]
      refine List.pairwise_cons.2 ⟨?_, ?_⟩
      · intro y hy
        have h2 : key y ≠ key a := by simpa using (List.mem_filter.1 hy).2
        exact h2.symm
      · exact List.Pairwise.sublist (List.filter_sublist _) ih

theorem exists_mem_dedupByKey {α : Type} (key : α → String) (l : List α) (k : String)
    (h : ∃ r ∈ l, key r = k) : ∃ r ∈ dedupByKey key l, key r = k := by
  induction l with
  | nil => simp at h
  | cons a rest ih =>
      rcases h with ⟨s, hs, hk⟩
      rcases List.mem_cons.1 hs with rfl | hs2
      · exact ⟨s, by simp [dedupByKey], hk⟩
      · by_cases hka : k = key a
        · exact ⟨a, by simp [dedupByKey], hka.symm⟩
        · rcases ih ⟨s, hs2, hk⟩ with ⟨r, hr, hrk⟩
          have hne : key r ≠ key a := by rw [hrk]; exact hka
          refine ⟨r, ?_, hrk⟩
          simp only [dedupByKey, List.mem_cons, List.mem_filter]
          exact Or.inr ⟨hr, by simpa using hne⟩

theorem dedupByKey_max_date (key : ScoreRecord → String) :
    ∀ l : List ScoreRecord, List.Sorted dateGe l →
      ∀ r ∈ dedupByKey key l, ∀ s ∈ l, key s = key r → s.date ≤ r.date := by
  intro l
  induction l with
  | nil => intro _ r hr; simp [dedupByKey] at hr
  | cons a rest ih =>
      intro hl r hr s hs hk
      simp only [dedupByKey, List.mem_cons] at hr
      rcases hr with rfl | hr2
      · rcases List.mem_cons.1 hs with rfl | hs2
        · exact le_refl _
        · exact List.rel_of_sorted_cons hl s hs2
      · have hr3 := List.mem_filter.1 hr2
        have hne : key r ≠ key a := by simpa using hr3.2
        rcases List.mem_cons.1 hs with rfl | hs2
        · exact absurd hk.symm hne
        · exact ih hl.of_cons r hr3.1 s hs2 hk

/-! ## Helper lemmas about the whole sort-group-sort pipeline -/

theorem ranked_mem (key : ScoreRecord → String) (l : List ScoreRecord) (r : ScoreRecord)
    (h : r ∈ List.insertionSort scoreGe (dedupByKey key (List.insertionSort dateGe l))) :
    r ∈ l := by
  have h1 : r ∈ dedupByKey key (List.insertionSort dateGe l) :=
    ((List.perm_insertionSort scoreGe _).mem_iff).1 h
  have h2 : r ∈ List.insertionSort dateGe l := mem_of_mem_dedupByKey key _ r h1
  exact ((List.perm_insertionSort dateGe l).mem_iff).1 h2

theorem ranked_max_date (key : ScoreRecord → String) (l : List ScoreRecord) (r : ScoreRecord)
    (h : r ∈ List.insertionSort scoreGe (dedupByKey key (List.insertionSort dateGe l))) :
    ∀ s ∈ l, key s = key r → s.date ≤ r.date := by
  intro s hs hk
  have h1 : r ∈ dedupByKey key (List.insertionSort dateGe l) :=
    ((List.perm_insertionSort scoreGe _).mem_iff).1 h
  have hs1 : s ∈ List.insertionSort dateGe l :=
    ((List.perm_insertionSort dateGe l).mem_iff).2 hs
  exact dedupByKey_max_date key _ (List.sorted_insertionSort dateGe l) r h1 s hs1 hk

theorem ranked_pairwise (key : ScoreRecord → String) (l : List ScoreRecord) :
    (List.insertionSort scoreGe (dedupByKey key (List.insertionSort dateGe l))).Pairwise
      (fun x y => key x ≠ key y) :=
  List.Pairwise.perm (dedupByKey_pairwise key _)
    (List.perm_insertionSort scoreGe _).symm (fun h => h.symm)

theorem ranked_covers (key : ScoreRecord → String) (l : List ScoreRecord) (k : String) :
    (∃ r ∈ List.insertionSort scoreGe (dedupByKey key (List.insertionSort dateGe l)),
        key r = k) ↔ (∃ r ∈ l, key r = k) := by
  constructor
  · rintro ⟨r, hr, hk⟩
    exact ⟨r, ranked_mem key l r hr, hk⟩
  · rintro ⟨r, hr, hk⟩
    have hr1 : r ∈ List.insertionSort dateGe l :=
      ((List.perm_insertionSort dateGe l).mem_iff).2 hr
    rcases exists_mem_dedupByKey key _ k ⟨r, hr1, hk⟩ with ⟨s, hs, hsk⟩
    exact ⟨s, ((List.perm_insertionSort scoreGe _).mem_iff).2 hs, hsk⟩

theorem ranked_sorted (key : ScoreRecord → String) (l : List ScoreRecord) :
    (List.insertionSort scoreGe (dedupByKey key (List.insertionSort dateGe l))).Chain'
      (fun a b => b.score ≤ a.score) :=
  List.Pairwise.chain' (List.sorted_insertionSort scoreGe _)

/-! ## Leaderboard claims -/

/-- C1: for every set of score records and every grouping key, the row the
per-game pipeline selects for that key has the maximum submission timestamp
among the records of that game sharing the key, independently of the score;
in particular `(A,L1,Game1,100)` then `(A,L1,Game1,50)` yields the single row
`(A,L1,Game1,50)`. -/
theorem game_leaderboard_latest_wins (g : String) (records : List ScoreRecord)
    (r : ScoreRecord) (hr : r ∈ gameLeaderboard g records) :
    (r ∈ records ∧ r.game = g) ∧
    (∀ s ∈ records, s.game = g → playerKey s = playerKey r → s.date ≤ r.date) ∧
    gameLeaderboard "Game1" [rec100, rec50] = [rec50] := by
  simp only [gameLeaderboard] at hr
  refine ⟨?_, ?_, by decide⟩
  · have hmem := ranked_mem playerKey (records.filter (fun x => x.game == g)) r hr
    have h2 := List.mem_filter.1 hmem
    exact ⟨h2.1, by simpa using h2.2⟩
  · intro s hs hsg hk
    refine ranked_max_date playerKey (records.filter (fun x => x.game == g)) r hr s ?_ hk
    exact List.mem_filter.2 ⟨hs, by simp [hsg]⟩

/-- Witness for C1 at the concrete spec scenario. -/
theorem game_leaderboard_latest_wins_witness :
    rec50 ∈ gameLeaderboard "Game1" [rec100, rec50] ∧
    ((rec50 ∈ [rec100, rec50] ∧ rec50.game = "Game1") ∧
     (∀ s ∈ [rec100, rec50],
        s.game = "Game1" → playerKey s = playerKey rec50 → s.date ≤ rec50.date) ∧
     gameLeaderboard "Game1" [rec100, rec50] = [rec50]) :=
  ⟨by decide, game_leaderboard_latest_wins "Game1" [rec100, rec50] rec50 (by decide)⟩

/-- C2: the per-game leaderboard has exactly one row per distinct grouping
key, where the key is `trim(name) ++ "-" ++ trim(location)`: output keys are
pairwise distinct, and a key occurs in the output iff some record of the
requested game carries it. -/
theorem game_leaderboard_one_row_per_key (g : String) (records : List ScoreRecord) :
    (∀ r : ScoreRecord, playerKey r = trimWs r.name ++ "-" ++ trimWs r.location) ∧
    (gameLeaderboard g records).Pairwise (fun x y => playerKey x ≠ playerKey y) ∧
    (∀ k : String,
      (∃ r ∈ gameLeaderboard g records, playerKey r = k) ↔
      (∃ r ∈ records, r.game = g ∧ playerKey r = k)) := by
  refine ⟨fun r => rfl, ?_, ?_⟩
  · simpa only [gameLeaderboard] using
      ranked_pairwise playerKey (records.filter (fun x => x.game == g))
  · intro k
    have hcov := ranked_covers playerKey (records.filter (fun x => x.game == g)) k
    simp only [gameLeaderboard]
    rw [hcov]
    simp [List.mem_filter, and_assoc]

/-- Witness for C2 at a concrete input. -/
theorem game_leaderboard_one_row_per_key_witness :
    (∀ r : ScoreRecord, playerKey r = trimWs r.name ++ "-" ++ trimWs r.location) ∧
    (gameLeaderboard "Game1" [rec100, rec50]).Pairwise
      (fun x y => playerKey x ≠ playerKey y) ∧
    (∀ k : String,
      (∃ r ∈ gameLeaderboard "Game1" [rec100, rec50], playerKey r = k) ↔
      (∃ r ∈ [rec100, rec50], r.game = "Game1" ∧ playerKey r = k)) :=
  game_leaderboard_one_row_per_key "Game1" [rec100, rec50]

/-- C3: both leaderboard endpoints return rows sorted by score descending
(adjacent rows satisfy `score(a) ≥ score(b)`), and empty input produces empty
output. -/
theorem leaderboards_sorted_desc (g : String) (records : List ScoreRecord) :
    (gameLeaderboard g records).Chain' (fun a b => b.score ≤ a.score) ∧
    (allLeaderboard records).Chain' (fun a b => b.score ≤ a.score) ∧
    gameLeaderboard g [] = [] ∧ allLeaderboard ([] : List ScoreRecord) = [] := by
  refine ⟨?_, ?_, rfl, rfl⟩
  · simpa only [gameLeaderboard] using
      ranked_sorted playerKey (records.filter (fun x => x.game == g))
  · simpa only [allLeaderboard] using ranked_sorted playerGameKey records

/-- Witness for C3 at a concrete input. -/
theorem leaderboards_sorted_desc_witness :
    (gameLeaderboard "Game1" [rec100, rec50]).Chain' (fun a b => b.score ≤ a.score) ∧
    (allLeaderboard [rec100, rec50]).Chain' (fun a b => b.score ≤ a.score) ∧
    gameLeaderboard "Game1" [] = [] ∧ allLeaderboard ([] : List ScoreRecord) = [] :=
  leaderboards_sorted_desc "Game1" [rec100, rec50]

/-- C4: the unfiltered endpoint returns the cross-game deduplicated ranked
set: keys (`trim(name)-trim(location)-trim(game)`) are pairwise distinct and
cover exactly the keys present in the store, every returned row is the most
recently submitted record for its key, and rows are sorted by score
descending. -/
theorem all_scores_deduplicated_ranked (records : List ScoreRecord) :
    (∀ r : ScoreRecord,
      playerGameKey r = trimWs r.name ++ "-" ++ trimWs r.location ++ "-" ++ trimWs r.game) ∧
    (allLeaderboard records).Pairwise (fun x y => playerGameKey x ≠ playerGameKey y) ∧
    (∀ k : String,
      (∃ r ∈ allLeaderboard records, playerGameKey r = k) ↔
      (∃ r ∈ records, playerGameKey r = k)) ∧
    (∀ r ∈ allLeaderboard records,
      r ∈ records ∧ ∀ s ∈ records, playerGameKey s = playerGameKey r → s.date ≤ r.date) ∧
    (allLeaderboard records).Chain' (fun a b => b.score ≤ a.score) := by
  refine ⟨fun r => rfl, ?_, ?_, ?_, ?_⟩
  · simpa only [allLeaderboard] using ranked_pairwise playerGameKey records
  · intro k
    simpa only [allLeaderboard] using ranked_covers playerGameKey records k
  · intro r hr
    simp only [allLeaderboard] at hr
    exact ⟨ranked_mem playerGameKey records r hr, ranked_max_date playerGameKey records r hr⟩
  · simpa only [allLeaderboard] using ranked_sorted playerGameKey records

/-- Witness for C4 at a concrete input. -/
theorem all_scores_deduplicated_ranked_witness :
    (∀ r : ScoreRecord,
      playerGameKey r = trimWs r.name ++ "-" ++ trimWs r.location ++ "-" ++ trimWs r.game) ∧
    (allLeaderboard [rec100, rec50]).Pairwise
      (fun x y => playerGameKey x ≠ playerGameKey y) ∧
    (∀ k : String,
      (∃ r ∈ allLeaderboard [rec100, rec50], playerGameKey r = k) ↔
      (∃ r ∈ [rec100, rec50], playerGameKey r = k)) ∧
    (∀ r ∈ allLeaderboard [rec100, rec50],
      r ∈ [rec100, rec50] ∧
        ∀ s ∈ [rec100, rec50], playerGameKey s = playerGameKey r → s.date ≤ r.date) ∧
    (allLeaderboard [rec100, rec50]).Chain' (fun a b => b.score ≤ a.score) :=
  all_scores_deduplicated_ranked [rec100, rec50]

/-- Record with the separator inside the name: `("A-B", "C")`. -/
def recAB : ScoreRecord := ⟨"A-B", "C", "G", 10, 1⟩

/-- Record with the separator inside the location: `("A", "B-C")`. -/
def recBC : ScoreRecord := ⟨"A", "B-C", "G", 20, 2⟩

/-- C10: the `$concat` key is ambiguous: two records with distinct trimmed
`(name, location)` pairs can share a grouping key because `"-"` may occur
inside a field, and the aggregator then merges the two players into one
row. -/
theorem playerKey_collision_merges_players :
    trimWs recAB.name ≠ trimWs recBC.name ∧
    playerKey recAB = playerKey recBC ∧
    gameLeaderboard "G" [recAB, recBC] = [recBC] := by decide

/-! ## Helper lemmas about the vote tally object -/

theorem lookupKey_setKey_self (m : List (String × Nat)) (k : String) (v : Nat) :
    lookupKey (setKey m k v) k = some v := by
  induction m with
  | nil => simp [setKey, lookupKey]
  | cons p rest ih =>
      obtain ⟨k1, v1⟩ := p
      by_cases h : k1 = k
      · subst h; simp [setKey, lookupKey]
      · simp [setKey, lookupKey, h, ih]

theorem lookupKey_setKey_other (m : List (String × Nat)) (k k2 : String) (v : Nat)
    (hne : k2 ≠ k) : lookupKey (setKey m k v) k2 = lookupKey m k2 := by
  induction m with
  | nil => simp [setKey, lookupKey, Ne.symm hne]
  | cons p rest ih =>
      obtain ⟨k1, v1⟩ := p
      by_cases h : k1 = k
      · subst h
        simp [setKey, lookupKey, Ne.symm hne]
      · by_cases h2 : k1 = k2
        · subst h2; simp [setKey, lookupKey, h]
        · simp [setKey, lookupKey, h, h2, ih]

theorem lookupKey_foldl_notmem (k : String) :
    ∀ (groups m0 : List (String × Nat)), (∀ p ∈ groups, p.1 ≠ k) →
      lookupKey (groups.foldl (fun m p => setKey m p.1 p.2) m0) k = lookupKey m0 k := by
  intro groups
  induction groups with
  | nil => intro m0 _; rfl
  | cons p gs ih =>
      intro m0 h
      have h1 : p.1 ≠ k := h p (List.mem_cons_self _ _)
      have h2 : ∀ q ∈ gs, q.1 ≠ k := fun q hq => h q (List.mem_cons_of_mem _ hq)
      simp only [List.foldl_cons]
      rw [ih (setKey m0 p.1 p.2) h2, lookupKey_setKey_other m0 p.1 k p.2 (Ne.symm h1)]

theorem lookupKey_foldl_unique (k : String) (n : Nat) :
    ∀ (groups m0 : List (String × Nat)),
      (k, n) ∈ groups → (∀ p ∈ groups, p.1 = k → p = (k, n)) →
      lookupKey (groups.foldl (fun m p => setKey m p.1 p.2) m0) k = some n := by
  intro groups
  induction groups with
  | nil => intro m0 h _; simp at h
  | cons p gs ih =>
      intro m0 hmem huniq
      simp only [List.foldl_cons]
      by_cases hin : (k, n) ∈ gs
      · exact ih (setKey m0 p.1 p.2) hin (fun q hq => huniq q (List.mem_cons_of_mem _ hq))
      · have hp : (k, n) = p := by
          rcases List.mem_cons.1 hmem with h | h
          · exact h
          · exact absurd h hin
        have hnot : ∀ q ∈ gs, q.1 ≠ k := by
          intro q hq hqk
          exact hin (huniq q (List.mem_cons_of_mem _ hq) hqk ▸ hq)
        rw [lookupKey_foldl_notmem k gs (setKey m0 p.1 p.2) hnot, ← hp]
        exact lookupKey_setKey_self m0 k n

theorem mem_of_mem_dedupGames (l : List (Option String)) (g : Option String)
    (h : g ∈ dedupGames l) : g ∈ l := by
  induction l with
  | nil => simp [dedupGames] at h
  | cons a rest ih =>
      simp only [dedupGames, List.mem_cons, List.mem_filter] at h
      rcases h with h1 | ⟨h2, _⟩
      · exact h1 ▸ List.mem_cons_self a rest
      · exact List.mem_cons_of_mem a (ih h2)

theorem mem_dedupGames_of_mem (l : List (Option String)) (g : Option String)
    (h : g ∈ l) : g ∈ dedupGames l := by
  induction l with
  | nil => simp at h
  | cons a rest ih =>
      rcases List.mem_cons.1 h with rfl | h2
      · simp [dedupGames]
      · by_cases hga : g = a
        · subst hga; simp [dedupGames]
        · simp only [dedupGames, List.mem_cons, List.mem_filter]
          exact Or.inr ⟨ih h2, by simpa using hga⟩

theorem mem_voteGroups (votes : List VoteRecord) (g : Option String) (n : Nat) :
    (g, n) ∈ voteGroups votes ↔
      g ∈ dedupGames (votes.map VoteRecord.game) ∧ n = countVotesFor votes g := by
  simp only [voteGroups, List.mem_map, Prod.mk.injEq]
  constructor
  · rintro ⟨x, hx, rfl, rfl⟩
    exact ⟨hx, rfl⟩
  · rintro ⟨hk, rfl⟩
    exact ⟨g, hk, rfl, rfl⟩

theorem countVotesFor_pos_iff (votes : List VoteRecord) (g : Option String) :
    0 < countVotesFor votes g ↔ ∃ v ∈ votes, v.game = g := by
  rw [countVotesFor, ← List.countP_eq_length_filter, List.countP_pos_iff]
  simp

theorem jsPropName_eq_of_ne_null (k : String) (hk : k ≠ "null") (g : Option String)
    (h : jsPropName g = k) : g = some k := by
  cases g with
  | none => exact absurd h.symm hk
  | some s =>
      simp only [jsPropName] at h
      rw [h]

theorem voteCounts_eq_foldl (votes : List VoteRecord) :
    voteCounts votes =
      ((voteGroups votes).map (fun p => (jsPropName p.1, p.2))).foldl
        (fun m p => setKey m p.1 p.2) initCounts := by
  rw [voteCounts, List.foldl_map]

/-! ## Vote claims -/

/-- C5 (amended): the tally of `GET /api/votes` groups votes by raw game
value and writes each group's count under the stringified id; for every
property name other than the collapsed `"null"`, the reported count equals
the number of votes for exactly that game string: the three fixed games are
always present (zero when unvoted), any other voted game also appears, and
unvoted non-fixed names are absent. -/
theorem votes_tally_counts (votes : List VoteRecord) (k : String) (hk : k ≠ "null") :
    lookupKey (voteCounts votes) k =
      if k = "delestage" ∨ k = "panne" ∨ k = "detective" ∨
          0 < countVotesFor votes (some k) then
        some (countVotesFor votes (some k))
      else none := by
  rw [voteCounts_eq_foldl]
  by_cases hpos : 0 < countVotesFor votes (some k)
  · have hg : (some k) ∈ votes.map VoteRecord.game := by
      rcases (countVotesFor_pos_iff votes (some k)).1 hpos with ⟨v, hv, hvk⟩
      exact hvk ▸ List.mem_map_of_mem VoteRecord.game hv
    have hmem : (some k, countVotesFor votes (some k)) ∈ voteGroups votes :=
      (mem_voteGroups votes (some k) _).2 ⟨mem_dedupGames_of_mem _ _ hg, rfl⟩
    have hmem2 : (k, countVotesFor votes (some k)) ∈
        (voteGroups votes).map (fun p => (jsPropName p.1, p.2)) :=
      List.mem_map.2 ⟨(some k, countVotesFor votes (some k)), hmem, rfl⟩
    have huniq : ∀ q ∈ (voteGroups votes).map (fun p => (jsPropName p.1, p.2)),
        q.1 = k → q = (k, countVotesFor votes (some k)) := by
      intro q hq hqk
      rcases List.mem_map.1 hq with ⟨p, hp, hpq⟩
      obtain ⟨g1, n1⟩ := p
      have hq1 : q.1 = jsPropName g1 := by rw [← hpq]
      have hg1 : g1 = some k := jsPropName_eq_of_ne_null k hk g1 (hq1 ▸ hqk)
      subst hg1
      have hn1 : n1 = countVotesFor votes (some k) :=
        ((mem_voteGroups votes (some k) n1).1 hp).2
      rw [← hpq, hn1]
      simp [jsPropName]
    rw [lookupKey_foldl_unique k _ _ initCounts hmem2 huniq]
    simp [hpos]
  · have hnot : ∀ q ∈ (voteGroups votes).map (fun p => (jsPropName p.1, p.2)), q.1 ≠ k := by
      intro q hq hqk
      rcases List.mem_map.1 hq with ⟨p, hp, hpq⟩
      obtain ⟨g1, n1⟩ := p
      have hq1 : q.1 = jsPropName g1 := by rw [← hpq]
      have hg1 : g1 = some k := jsPropName_eq_of_ne_null k hk g1 (hq1 ▸ hqk)
      subst hg1
      have hmem3 : (some k) ∈ votes.map VoteRecord.game :=
        mem_of_mem_dedupGames _ _ ((mem_voteGroups votes (some k) n1).1 hp).1
      rcases List.mem_map.1 hmem3 with ⟨v, hv, hvk⟩
      exact hpos ((countVotesFor_pos_iff votes (some k)).2 ⟨v, hv, hvk⟩)
    rw [lookupKey_foldl_notmem k _ initCounts hnot]
    have hz : countVotesFor votes (some k) = 0 := Nat.eq_zero_of_not_pos hpos
    by_cases h1 : k = "delestage"
    · subst h1; simp [initCounts, lookupKey, hz]
    by_cases h2 : k = "panne"
    · subst h2; simp [initCounts, lookupKey, hz]
    by_cases h3 : k = "detective"
    · subst h3; simp [initCounts, lookupKey, hz]
    simp [initCounts, lookupKey, h1, h2, h3, hpos, Ne.symm h1, Ne.symm h2, Ne.symm h3]

/-- Witness for C5 at a concrete input: two `panne` votes are reported as
`panne: 2`. -/
theorem votes_tally_counts_witness :
    ("panne" : String) ≠ "null" ∧
    lookupKey (voteCounts [⟨some "panne", "c1", 0⟩, ⟨some "panne", "c2", 1⟩]) "panne" =
      (if ("panne" : String) = "delestage" ∨ ("panne" : String) = "panne" ∨
          ("panne" : String) = "detective" ∨
          0 < countVotesFor [⟨some "panne", "c1", 0⟩, ⟨some "panne", "c2", 1⟩] (some "panne")
       then some (countVotesFor [⟨some "panne", "c1", 0⟩, ⟨some "panne", "c2", 1⟩]
         (some "panne"))
       else none) :=
  ⟨by decide,
   votes_tally_counts [⟨some "panne", "c1", 0⟩, ⟨some "panne", "c2", 1⟩] "panne" (by decide)⟩

/-- The `null` collapse that restricts the tally characterization: one vote
with a missing game and a later one for the literal game `"null"` form two
`$group` buckets whose property writes collide; the second write overwrites
the first, so the reported `null` count is 1, not the summed 2. -/
theorem votes_tally_null_collapse :
    voteGroups [⟨none, "c1", 0⟩, ⟨some "null", "c2", 1⟩] =
      [(none, 1), (some "null", 1)] ∧
    lookupKey (voteCounts [⟨none, "c1", 0⟩, ⟨some "null", "c2", 1⟩]) "null" = some 1 := by
  decide

/-- C5 counterexample: one vote for a game outside the fixed set makes the
tally object grow an extra key, so the output shape is not fixed. -/
theorem votes_tally_extra_key :
    voteCounts [⟨some "autre", "c1", 0⟩] =
      [("delestage", 0), ("panne", 0), ("detective", 0), ("autre", 1)] ∧
    "autre" ∉ (["delestage", "panne", "detective"] : List String) := by decide

/-- Case analysis of `POST /api/votes`: shared between the duplicate-vote and
missing-game claims. -/
theorem postVote_eq (votes : List VoteRecord) (g : Option String) (ip : String) (now : Nat) :
    ((∃ v ∈ votes, v.game = g ∧ v.clientIp = ip) →
      postVote votes g ip now = (PostVoteResult.conflict, votes)) ∧
    (¬(∃ v ∈ votes, v.game = g ∧ v.clientIp = ip) →
      postVote votes g ip now =
        (PostVoteResult.inserted ⟨g, ip, now⟩, votes ++ [⟨g, ip, now⟩])) := by
  have hiff : (votes.find? (fun v => v.game == g && v.clientIp == ip)).isSome ↔
      (∃ v ∈ votes, v.game = g ∧ v.clientIp = ip) := by
    rw [List.find?_isSome]
    constructor
    · rintro ⟨v, hv, hp⟩
      simp only [Bool.and_eq_true, beq_iff_eq] at hp
      exact ⟨v, hv, hp⟩
    · rintro ⟨v, hv, h1, h2⟩
      exact ⟨v, hv, by simp [h1, h2]⟩
  constructor
  · intro hex
    rcases Option.isSome_iff_exists.1 (hiff.2 hex) with ⟨w, hw⟩
    simp [postVote, hw]
  · intro hnex
    have hnone : votes.find? (fun v => v.game == g && v.clientIp == ip) = none := by
      rcases hf : votes.find? (fun v => v.game == g && v.clientIp == ip) with _ | w
      · exact hf
      · exact absurd (hiff.1 (by simp [hf])) hnex
    simp [postVote, hnone]

/-- C6: a duplicate vote for the same `(game, clientIp)` pair is rejected
with the 400 conflict error, inserts nothing (the collection, hence the
tally, is unchanged), and a first vote is inserted and returned. -/
theorem vote_duplicate_rejected (votes : List VoteRecord) (g : Option String)
    (ip : String) (now : Nat) :
    ((∃ v ∈ votes, v.game = g ∧ v.clientIp = ip) →
      postVote votes g ip now = (PostVoteResult.conflict, votes) ∧
      voteCounts (postVote votes g ip now).2 = voteCounts votes) ∧
    (¬(∃ v ∈ votes, v.game = g ∧ v.clientIp = ip) →
      postVote votes g ip now =
        (PostVoteResult.inserted ⟨g, ip, now⟩, votes ++ [⟨g, ip, now⟩])) := by
  refine ⟨fun hex => ?_, (postVote_eq votes g ip now).2⟩
  have h := (postVote_eq votes g ip now).1 hex
  exact ⟨h, by rw [h]⟩

/-- Witness for C6: a second `delestage` vote from client `X` is rejected and
leaves the collection unchanged; the first vote from `X` is inserted. -/
theorem vote_duplicate_rejected_witness :
    ((postVote [⟨some "delestage", "X", 0⟩] (some "delestage") "X" 1 =
        (PostVoteResult.conflict, [⟨some "delestage", "X", 0⟩]) ∧
      voteCounts (postVote [⟨some "delestage", "X", 0⟩] (some "delestage") "X" 1).2 =
        voteCounts [⟨some "delestage", "X", 0⟩]) ∧
     postVote [] (some "delestage") "X" 0 =
       (PostVoteResult.inserted ⟨some "delestage", "X", 0⟩, [⟨some "delestage", "X", 0⟩])) :=
  ⟨(vote_duplicate_rejected [⟨some "delestage", "X", 0⟩] (some "delestage") "X" 1).1
      (by decide),
   (vote_duplicate_rejected [] (some "delestage") "X" 0).2 (by decide)⟩

/-- C8 counterexample: a vote submission with no `game` field is not rejected
by any validation; the handler inserts a vote record with a missing game. -/
theorem post_vote_missing_game_inserts :
    postVote [] none "1.2.3.4" 7 =
      (PostVoteResult.inserted ⟨none, "1.2.3.4", 7⟩, [⟨none, "1.2.3.4", 7⟩]) := by decide

/-- C8 (amended): `POST /api/votes` performs no presence validation on
`game`; a body without `game` goes through the same lookup-then-insert path,
inserting a `VoteRecord` with a missing game when the client has not already
voted that way, and failing with the duplicate-vote error when it has. -/
theorem post_vote_no_validation (votes : List VoteRecord) (ip : String) (now : Nat) :
    (¬(∃ v ∈ votes, v.game = none ∧ v.clientIp = ip) →
      postVote votes none ip now =
        (PostVoteResult.inserted ⟨none, ip, now⟩, votes ++ [⟨none, ip, now⟩])) ∧
    ((∃ v ∈ votes, v.game = none ∧ v.clientIp = ip) →
      postVote votes none ip now = (PostVoteResult.conflict, votes)) :=
  ⟨(postVote_eq votes none ip now).2, (postVote_eq votes none ip now).1⟩

/-- Witness for C8 at a concrete input. -/
theorem post_vote_no_validation_witness :
    postVote [] none "1.2.3.4" 7 =
      (PostVoteResult.inserted ⟨none, "1.2.3.4", 7⟩, [⟨none, "1.2.3.4", 7⟩]) ∧
    postVote [⟨none, "1.2.3.4", 7⟩] none "1.2.3.4" 8 =
      (PostVoteResult.conflict, [⟨none, "1.2.3.4", 7⟩]) :=
  ⟨(post_vote_no_validation [] "1.2.3.4" 7).1 (by decide),
   (post_vote_no_validation [⟨none, "1.2.3.4", 7⟩] "1.2.3.4" 8).2 (by decide)⟩

/-! ## Score submission claim -/

/-- C7 counterexample: a submission with all four fields present but score
`0` is rejected with 400, because the handler tests JS truthiness
(`!score`), not field presence. -/
theorem post_score_zero_rejected :
    postScore ⟨some "A", some "L", some "G", some 0⟩ 5 = PostScoreResult.badRequest ∧
    some "A" ≠ (none : Option String) ∧ some "L" ≠ (none : Option String) ∧
    some "G" ≠ (none : Option String) ∧ some (0 : Int) ≠ (none : Option Int) := by decide

/-- C7 (amended): `POST /api/scores` returns 400 iff at least one of the four
fields is missing or falsy (an absent field, an empty string, or a zero
score); when all four fields are present and truthy the record is inserted
with the submission timestamp. -/
theorem post_score_validation (b : ScoreBody) (now : Nat) :
    (postScore b now = PostScoreResult.badRequest ↔
      (b.name = none ∨ b.name = some "" ∨ b.location = none ∨ b.location = some "" ∨
       b.game = none ∨ b.game = some "" ∨ b.score = none ∨ b.score = some 0)) ∧
    (∀ nm loc gm sc, b.name = some nm → b.location = some loc → b.game = some gm →
      b.score = some sc → nm ≠ "" → loc ≠ "" → gm ≠ "" → sc ≠ 0 →
      postScore b now = PostScoreResult.inserted ⟨nm, loc, gm, sc, now⟩) := by
  obtain ⟨n0, l0, g0, s0⟩ := b
  have hcond : (!truthyStr n0 || !truthyStr l0 || !truthyStr g0 || !truthyNum s0) = true ↔
      (n0 = none ∨ n0 = some "" ∨ l0 = none ∨ l0 = some "" ∨
       g0 = none ∨ g0 = some "" ∨ s0 = none ∨ s0 = some 0) := by
    cases n0 <;> cases l0 <;> cases g0 <;> cases s0 <;>
      simp [truthyStr, truthyNum, or_assoc]
  constructor
  · rw [← hcond]
    by_cases hc : (!truthyStr n0 || !truthyStr l0 || !truthyStr g0 || !truthyNum s0) = true
    · simp [postScore, hc]
    · simp [postScore, hc]
  · rintro nm loc gm sc h1 h2 h3 h4 h5 h6 h7 h8
    simp only at h1 h2 h3 h4
    subst h1; subst h2; subst h3; subst h4
    have hc : (!truthyStr (some nm) || !truthyStr (some loc) || !truthyStr (some gm) ||
        !truthyNum (some sc)) = false := by
      simp [truthyStr, truthyNum, h5, h6, h7, h8]
    simp [postScore, hc]

/-- Witness for C7 at a concrete valid submission. -/
theorem post_score_validation_witness :
    (postScore ⟨some "A", some "L", some "G", some 7⟩ 3 = PostScoreResult.badRequest ↔
      ((some "A" : Option String) = none ∨ (some "A" : Option String) = some "" ∨
       (some "L" : Option String) = none ∨ (some "L" : Option String) = some "" ∨
       (some "G" : Option String) = none ∨ (some "G" : Option String) = some "" ∨
       (some (7 : Int) : Option Int) = none ∨ (some (7 : Int) : Option Int) = some 0)) ∧
    (∀ nm loc gm sc, (some "A" : Option String) = some nm →
      (some "L" : Option String) = some loc → (some "G" : Option String) = some gm →
      (some (7 : Int) : Option Int) = some sc →
      nm ≠ "" → loc ≠ "" → gm ≠ "" → sc ≠ 0 →
      postScore ⟨some "A", some "L", some "G", some 7⟩ 3 =
        PostScoreResult.inserted ⟨nm, loc, gm, sc, 3⟩) :=
  post_score_validation ⟨some "A", some "L", some "G", some 7⟩ 3

/-! ## Comment feed claim -/

/-- C9: `GET /comments` returns at most 50 records, ordered with
non-increasing submission timestamps (newest first). -/
theorem comments_recent_bounded (cs : List CommentRecord) :
    (getComments cs).length ≤ 50 ∧
    (getComments cs).Chain' (fun a b => b.timestamp ≤ a.timestamp) := by
  constructor
  · simp only [getComments]
    exact List.length_take_le 50 (List.insertionSort tsGe cs)
  · have hs : List.Sorted tsGe (List.insertionSort tsGe cs) :=
      List.sorted_insertionSort tsGe cs
    have hp : ((List.insertionSort tsGe cs).take 50).Pairwise tsGe :=
      List.Pairwise.sublist (List.take_sublist _ _) hs
    exact List.Pairwise.chain' hp

/-- Witness for C9 at a concrete input. -/
theorem comments_recent_bounded_witness :
    (getComments [⟨"a", "hi", 1⟩, ⟨"b", "yo", 2⟩]).length ≤ 50 ∧
    (getComments [⟨"a", "hi", 1⟩, ⟨"b", "yo", 2⟩]).Chain'
      (fun a b => b.timestamp ≤ a.timestamp) :=
  comments_recent_bounded [⟨"a", "hi", 1⟩, ⟨"b", "yo", 2⟩]
